import Mathlib

/-!
Verification of the line-wrapping engine of tex-fmt (src/wrap.rs) and the
argument-resolution step (src/parse.rs), via a shallow embedding: lines are
lists of Unicode scalar values (`List Char`), the mutable diagnostic log is
threaded explicitly as a list, and machine integers (`u8` widths) are modelled
as `Nat`, which is faithful here because the only arithmetic is a guarded
subtraction.
-/

set_option maxRecDepth 100000

namespace TexFmt

/-- Severity levels of the `log` crate used by the diagnostics. -/
inductive Level where
  | error
  | warn
  | info
  | debug
  | trace
deriving DecidableEq, Repr

/-- Modelled from the spec: the Diagnostic Log (crate `logging`, not under
src/) is an append-only sequence of structured records
`(severity, file, optional line numbers, optional line text, message)`. -/
structure Log where
  level : Level
  file : String
  linum_new : Option Nat
  linum_old : Option Nat
  line : Option (List Char)
  message : String
deriving DecidableEq, Repr

/-- Modelled from the spec: `record_line_log` (crate `logging`, not under
src/) appends one line-scoped record carrying the file, both line numbers
and the offending line text. -/
def record_line_log (logs : List Log) (level : Level) (file : String)
    (linum_new linum_old : Nat) (line : List Char) (message : String) :
    List Log :=
  logs ++ [⟨level, file, some linum_new, some linum_old, some line, message⟩]

/-- Modelled from the spec: `record_file_log` (crate `logging`, not under
src/) appends one file-scoped record with no line numbers and no line text. -/
def record_file_log (logs : List Log) (level : Level) (file : String)
    (message : String) : List Log :=
  logs ++ [⟨level, file, none, none, none, message⟩]

/-- Per-line parse state consumed by the wrap engine. The struct `State`
lives in `crate::format` (not under src/); the wrap code reads exactly
`state.verbatim.visual`, `state.ignore.visual`, `state.linum_new` and
`state.linum_old`, so only those fields are embedded (the two region
trackers are reduced to their `visual` flag). -/
structure VisualFlag where
  visual : Bool
deriving DecidableEq, Repr

/-- Per-line context: region flags and the two diagnostic line counters. -/
structure State where
  verbatim : VisualFlag
  ignore : VisualFlag
  linum_old : Nat
  linum_new : Nat
deriving DecidableEq, Repr

/-- Run configuration consumed by the wrap engine (`crate::Config`, whose
definition is not under src/; the spec lists exactly these fields, which are
the ones `wrap.rs` reads). `wrap` and `wrap_min` are `u8` values converted
into `usize` at every use site, so they are embedded as `Nat`. -/
structure Config where
  keep : Bool
  wrap : Nat
  wrap_min : Nat
  trace : Bool
deriving DecidableEq, Repr

/-- `needs_wrap` from src/wrap.rs: a line needs wrapping when wrapping is
enabled, the line is in neither a verbatim nor an ignored region, and its
character count exceeds `args.wrap`. -/
def needs_wrap (line : List Char) (state : State) (args : Config) : Bool :=
  !args.keep && !state.verbatim.visual && !state.ignore.visual
    && decide (args.wrap < line.length)

/-- The scanning loop of `find_wrap_point` from src/wrap.rs, one list cell per
iteration of the Rust `for (i, c) in line.chars().enumerate()` loop, with the
loop-carried variables (`after_char`, `prev_char`, `wrap_point`) as
arguments. -/
def find_wrap_point_go (args : Config) :
    List Char → Nat → Bool → Option Char → Option Nat → Option Nat
  | [], _, _, _, wrap_point => wrap_point
  | c :: rest, i, after_char, prev_char, wrap_point =>
    if args.wrap_min ≤ i ∧ wrap_point.isSome then
      wrap_point
    else if c = ' ' ∧ prev_char ≠ some '\\' then
      find_wrap_point_go args rest (i + 1) after_char (some c)
        (if after_char then some i else wrap_point)
    else if c ≠ '%' then
      find_wrap_point_go args rest (i + 1) true (some c) wrap_point
    else
      find_wrap_point_go args rest (i + 1) after_char (some c) wrap_point

/-- `find_wrap_point` from src/wrap.rs: best index at which to break a long
line, or `none`. -/
def find_wrap_point (line : List Char) (args : Config) : Option Nat :=
  find_wrap_point_go args line 0 false none none

/-- Modelled from the spec: the external CommentLocator
(`find_comment_index` from `crate::comments`, not under src/) returns the
index of the first unescaped comment marker of the line, or none; a marker
is unescaped when the immediately preceding character is not a backslash. -/
def find_comment_index_go : List Char → Nat → Option Char → Option Nat
  | [], _, _ => none
  | c :: rest, i, prev_char =>
    if c = '%' ∧ prev_char ≠ some '\\' then some i
    else find_comment_index_go rest (i + 1) (some c)

/-- Index of the first unescaped comment marker, or none. -/
def find_comment_index (line : List Char) : Option Nat :=
  find_comment_index_go line 0 none

/-- `apply_wrap` from src/wrap.rs. The Rust function mutates `logs` through a
`&mut` reference and returns `Option<(String, String)>`; the embedding
returns the pair of that result and the final log list. -/
def apply_wrap (line : List Char) (state : State) (file : String)
    (args : Config) (logs : List Log) :
    Option (List Char × List Char) × List Log :=
  let logs1 :=
    if args.trace then
      record_line_log logs Level.trace file state.linum_new state.linum_old
        line "Wrapping long line."
    else logs
  let wrap_point := find_wrap_point line args
  let comment_index := find_comment_index line
  let logs2 :=
    match wrap_point with
    | some p =>
      if p ≤ args.wrap then logs1
      else
        record_line_log logs1 Level.warn file state.linum_new
          state.linum_old line "Line cannot be wrapped."
    | none =>
      record_line_log logs1 Level.warn file state.linum_new
        state.linum_old line "Line cannot be wrapped."
  let result :=
    wrap_point.map fun p =>
      let line_start :=
        match comment_index with
        | some c => if c < p then ['%'] else []
        | none => []
      (line.take p, line_start ++ line.drop p)
  (result, logs2)

/-- Command line arguments, from src/parse.rs (`struct Cli`). `tab : i8` is
embedded as `Int`, the `u8` widths as `Nat`. -/
structure Cli where
  check : Bool
  print : Bool
  keep : Bool
  verbose : Bool
  quiet : Bool
  trace : Bool
  files : List String
  stdin : Bool
  tab : Int
  usetabs : Bool
  wrap : Nat
  wrap_min : Nat
deriving DecidableEq, Repr

/-- `Cli::resolve` from src/parse.rs: make the provided arguments consistent
and report an exit code. The `&mut self` update and the `&mut Vec<Log>`
appends are embedded by returning the new `Cli`, the new log list and the
exit code. -/
def Cli.resolve (cli : Cli) (logs : List Log) : Cli × List Log × Nat :=
  let cli1 : Cli :=
    ⟨cli.check, cli.print || cli.stdin, cli.keep, cli.verbose || cli.trace,
      cli.quiet, cli.trace, cli.files, cli.stdin, cli.tab, cli.usetabs,
      cli.wrap, if 50 ≤ cli.wrap then cli.wrap - 10 else cli.wrap⟩
  let step1 : List Log × Nat :=
    if !cli1.stdin && cli1.files.isEmpty then
      (record_file_log logs Level.error ""
        "No files specified. Either provide filenames or provide --stdin.", 1)
    else (logs, 0)
  let step2 : List Log × Nat :=
    if cli1.stdin && !cli1.files.isEmpty then
      (record_file_log step1.1 Level.error ""
        "Do not provide file name(s) when using --stdin.", 1)
    else step1
  (cli1, step2.1, step2.2)

/-- A character position that sets `after_char` in the scan of
`find_wrap_point`: any character other than an unescaped space and other
than the comment marker. -/
abbrev content_char_at (ln : List Char) (j : Nat) : Prop :=
  j < ln.length ∧
    ¬(ln[j]? = some ' ' ∧ (j = 0 ∨ ln[j - 1]? ≠ some '\\')) ∧
    ln[j]? ≠ some '%'

/-- A position at which the scan of `find_wrap_point` records a candidate:
an unescaped space that follows at least one content character. -/
abbrev wrap_candidate (ln : List Char) (p : Nat) : Prop :=
  ln[p]? = some ' ' ∧ ln[p - 1]? ≠ some '\\' ∧
    ∃ j < p, content_char_at ln j

/-- A convenient concrete configuration: the tool defaults
(`wrap = 80`, `wrap_min = 80 - 10`), wrapping enabled, tracing off. -/
def std_config : Config := ⟨false, 80, 70, false⟩

/-- A concrete per-line context with both region flags off. -/
def std_state : State := ⟨⟨false⟩, ⟨false⟩, 1, 1⟩

/-- Scenario A of the spec: a sentence of plain words totaling 105
characters (21 repetitions of a four-letter word and a space), so that with
`wrap_min = 70` qualifying spaces exist both before and after column 70. -/
def scenario_a_line : List Char :=
  "aaaa aaaa aaaa aaaa aaaa aaaa aaaa aaaa aaaa aaaa aaaa aaaa aaaa aaaa aaaa aaaa aaaa aaaa aaaa aaaa aaaa ".data

/-- A 105-character line whose first space sits at column 80, past
`wrap_min = 70`: one 80-character word, a space, then a 24-character word. -/
def late_space_line : List Char :=
  List.replicate 80 'a' ++ [' '] ++ List.replicate 24 'b'

/-- A line in which the only early space follows a literal double backslash
(the backslash before the space is itself escaped). -/
def dbs_line : List Char :=
  ['a', '\\', '\\', ' ', 'b', 'b', ' ', 'c']

/-- Scenario B of the spec: a comment marker followed by 100 non-space
characters; it contains no unescaped space after content, so it cannot be
wrapped. -/
def percent_line : List Char :=
  '%' :: List.replicate 100 'x'

/-- Scenario D of the spec, first line: comment marker at character index
10, a single candidate space at index 40 (so the chosen wrap point falls
inside the trailing comment). -/
def scen_d_line : List Char :=
  "aaaaaaaaaa%bbbbbbbbbbbbbbbbbbbbbbbbbbbbb cc".data

/-- Scenario D of the spec, second line: comment marker at character index
10, single candidate space at index 5 (the wrap point falls before the
comment). -/
def scen_d2_line : List Char :=
  "aaaaa bbbb%cc".data

/-- A line whose only space sits at column 86, past `wrap = 80`: a wrap
point exists but exceeds the configured width. -/
def over_wrap_line : List Char :=
  List.replicate 86 'a' ++ [' '] ++ List.replicate 20 'b'

/-- Number of Warn-severity "Line cannot be wrapped." records in a log. -/
def cannot_wrap_warns (logs : List Log) : Nat :=
  (logs.filter fun e =>
    decide (e.level = Level.warn) &&
      decide (e.message = "Line cannot be wrapped.")).length

/-- Head of a dropped suffix, as an indexed lookup into the full list. -/
lemma drop_head (ln rest : List Char) (c : Char) (i : Nat)
    (h : c :: rest = ln.drop i) : ln[i]? = some c := by
  have h0 : (ln.drop i)[0]? = some c := by rw [← h]; simp
  rw [List.getElem?_drop] at h0
  simpa using h0

/-- Tail of a dropped suffix is the next dropped suffix. -/
lemma drop_tail (ln rest : List Char) (c : Char) (i : Nat)
    (h : c :: rest = ln.drop i) : rest = ln.drop (i + 1) := by
  have h1 : (ln.drop i).drop 1 = ln.drop (i + 1) := by rw [List.drop_drop]
  rw [← h] at h1
  simpa using h1

/-- A bounded existential is unchanged by raising the bound past a
position where the predicate fails. -/
lemma bex_lt_succ_of_not (P : Nat → Prop) (i : Nat) (h : ¬ P i) :
    (∃ j < i + 1, P j) ↔ (∃ j < i, P j) := by
  constructor
  · rintro ⟨j, hj, hP⟩
    rcases Nat.lt_succ_iff_lt_or_eq.mp hj with h' | rfl
    · exact ⟨j, h', hP⟩
    · exact absurd hP h
  · rintro ⟨j, hj, hP⟩
    exact ⟨j, Nat.lt_succ_of_lt hj, hP⟩

/-- The character a scan step sees, when it takes the `after_char := true`
branch, is a content character of the full line. -/
lemma content_char_at_intro (ln : List Char) (i : Nat) (c : Char)
    (hc : ln[i]? = some c)
    (hsp : ¬(c = ' ' ∧ (if i = 0 then (none : Option Char) else ln[i - 1]?)
      ≠ some '\\'))
    (hpc : c ≠ '%') : content_char_at ln i := by
  refine ⟨(List.getElem?_eq_some.mp hc).1, ?_, ?_⟩
  · rintro ⟨h1, h2⟩
    have hcc : c = ' ' := by rw [hc] at h1; exact Option.some_injective _ h1
    rcases h2 with h0 | hbs
    · exact hsp ⟨hcc, by simp [h0]⟩
    · by_cases h0 : i = 0
      · exact hsp ⟨hcc, by simp [h0]⟩
      · exact hsp ⟨hcc, by rw [if_neg h0]; exact hbs⟩
  · rw [hc]
    simpa using hpc

/-- An unescaped space is not a content character. -/
lemma not_content_space (ln : List Char) (i : Nat)
    (hc : ln[i]? = some ' ') (hun : i = 0 ∨ ln[i - 1]? ≠ some '\\') :
    ¬ content_char_at ln i := by
  rintro ⟨-, hno, -⟩
  exact hno ⟨hc, hun⟩

/-- The comment marker is not a content character. -/
lemma not_content_marker (ln : List Char) (i : Nat)
    (hc : ln[i]? = some '%') : ¬ content_char_at ln i := by
  rintro ⟨-, -, hno⟩
  exact hno hc

/-- Once the scan index has reached `wrap_min` with a candidate in hand, the
scan stops at once and returns that candidate, whatever remains. -/
lemma go_exit (args : Config) (rest : List Char) (i : Nat) (A : Bool)
    (prev : Option Char) (p : Nat) (h : args.wrap_min ≤ i) :
    find_wrap_point_go args rest i A prev (some p) = some p := by
  cases rest with
  | nil => rfl
  | cons c rest => simp [find_wrap_point_go, h]

/-- Soundness invariant of the scanning loop: starting from a state whose
accumulators truthfully describe the already-scanned prefix, any returned
index is a genuine wrap candidate of the full line. -/
lemma go_sound (args : Config) (ln : List Char) :
    ∀ (rest : List Char) (i : Nat) (A : Bool) (prev : Option Char)
      (wp : Option Nat),
      rest = ln.drop i →
      prev = (if i = 0 then none else ln[i - 1]?) →
      (A = true → ∃ j < i, content_char_at ln j) →
      (∀ q, wp = some q → wrap_candidate ln q) →
      ∀ p, find_wrap_point_go args rest i A prev wp = some p →
        wrap_candidate ln p := by
  intro rest
  induction rest with
  | nil =>
    intro i A prev wp _ _ _ hwp p hrun
    exact hwp p hrun
  | cons c rest ih =>
    intro i A prev wp hrest hprev hA hwp p hrun
    have hc : ln[i]? = some c := drop_head ln rest c i hrest
    have hrest' : rest = ln.drop (i + 1) := drop_tail ln rest c i hrest
    rw [find_wrap_point_go] at hrun
    by_cases hexit : args.wrap_min ≤ i ∧ wp.isSome = true
    · rw [if_pos hexit] at hrun
      exact hwp p hrun
    · rw [if_neg hexit] at hrun
      have hprev' : (some c : Option Char) =
          (if i + 1 = 0 then none else ln[i + 1 - 1]?) := by
        simp [hc]
      by_cases hsp : c = ' ' ∧ prev ≠ some '\\'
      · rw [if_pos hsp] at hrun
        refine ih (i + 1) A (some c) _ hrest' hprev' ?_ ?_ p hrun
        · intro ha
          obtain ⟨j, hj, hcj⟩ := hA ha
          exact ⟨j, Nat.lt_succ_of_lt hj, hcj⟩
        · intro q hq
          cases A with
          | false =>
            exact hwp q (by simpa using hq)
          | true =>
            simp only [if_pos] at hq
            have hiq : i = q := by simpa using hq
            subst hiq
            obtain ⟨j, hj, hcj⟩ := hA rfl
            have hi0 : i ≠ 0 := by
              intro h0
              subst h0
              exact absurd hj (Nat.not_lt_zero j)
            refine ⟨by rw [hc, hsp.1], ?_, ⟨j, hj, hcj⟩⟩
            have := hsp.2
            rw [hprev, if_neg hi0] at this
            exact this
      · rw [if_neg hsp] at hrun
        by_cases hpc : c ≠ '%'
        · rw [if_pos hpc] at hrun
          refine ih (i + 1) true (some c) wp hrest' hprev' ?_ hwp p hrun
          intro _
          exact ⟨i, Nat.lt_succ_self i, content_char_at_intro ln i c hc
            (by rw [← hprev]; exact hsp) hpc⟩
        · rw [if_neg hpc] at hrun
          refine ih (i + 1) A (some c) wp hrest' hprev' ?_ hwp p hrun
          intro ha
          obtain ⟨j, hj, hcj⟩ := hA ha
          exact ⟨j, Nat.lt_succ_of_lt hj, hcj⟩

/-- Completeness invariant, case one: when every wrap candidate of the line
lies at or after `wrap_min` and `p0` is the least one, a scan started below
`p0` with truthful accumulators and no candidate in hand returns `p0`. -/
lemma go_first (args : Config) (ln : List Char) (p0 : Nat)
    (hc : wrap_candidate ln p0)
    (hmin : ∀ q, wrap_candidate ln q → p0 ≤ q)
    (hwm : args.wrap_min ≤ p0) :
    ∀ (rest : List Char) (i : Nat) (A : Bool) (prev : Option Char),
      rest = ln.drop i →
      prev = (if i = 0 then none else ln[i - 1]?) →
      (A = true ↔ ∃ j < i, content_char_at ln j) →
      i ≤ p0 →
      find_wrap_point_go args rest i A prev none = some p0 := by
  intro rest
  induction rest with
  | nil =>
    intro i A prev hrest _ _ hip
    exfalso
    have hlen : ln.length ≤ i := by
      rw [← List.drop_eq_nil_iff, ← hrest]
    have hp0 : p0 < ln.length := (List.getElem?_eq_some.mp hc.1).1
    omega
  | cons c rest ih =>
    intro i A prev hrest hprev hA hip
    have hci : ln[i]? = some c := drop_head ln rest c i hrest
    have hrest' : rest = ln.drop (i + 1) := drop_tail ln rest c i hrest
    rw [find_wrap_point_go]
    rw [if_neg (by simp)]
    have hprev' : (some c : Option Char) =
        (if i + 1 = 0 then none else ln[i + 1 - 1]?) := by
      simp [hci]
    rcases Nat.lt_or_ge i p0 with hlt | hge
    · -- still strictly before the first candidate
      by_cases hsp : c = ' ' ∧ prev ≠ some '\\'
      · rw [if_pos hsp]
        cases A with
        | true =>
          exfalso
          obtain ⟨j, hj, hcj⟩ := hA.mp rfl
          have hi0 : i ≠ 0 := by omega
          have hcand : wrap_candidate ln i := by
            refine ⟨by rw [hci, hsp.1], ?_, ⟨j, hj, hcj⟩⟩
            have := hsp.2
            rw [hprev, if_neg hi0] at this
            exact this
          exact absurd (hmin i hcand) (by omega)
        | false =>
          simp only [if_neg Bool.false_ne_true, Bool.false_eq_true, if_false]
          refine ih (i + 1) false (some c) hrest' hprev' ?_ (by omega)
          have hnc : ¬ content_char_at ln i := by
            refine not_content_space ln i (by rw [hci, hsp.1]) ?_
            by_cases hi0 : i = 0
            · exact Or.inl hi0
            · refine Or.inr ?_
              have := hsp.2
              rw [hprev, if_neg hi0] at this
              exact this
          rw [bex_lt_succ_of_not _ i hnc]
          simpa using hA
      · rw [if_neg hsp]
        by_cases hpc : c ≠ '%'
        · rw [if_pos hpc]
          refine ih (i + 1) true (some c) hrest' hprev' ?_ (by omega)
          simp only [true_iff]
          exact ⟨i, Nat.lt_succ_self i, content_char_at_intro ln i c hci
            (by rw [← hprev]; exact hsp) hpc⟩
        · rw [if_neg hpc]
          refine ih (i + 1) A (some c) hrest' hprev' ?_ (by omega)
          have hnc : ¬ content_char_at ln i :=
            not_content_marker ln i (by rw [hci]; simpa using hpc)
          rw [bex_lt_succ_of_not _ i hnc]
          exact hA
    · -- i = p0 : the scan is exactly at the least candidate
      have hieq : i = p0 := by omega
      subst hieq
      have hcsp : c = ' ' := by
        have := hc.1
        rw [hci] at this
        exact Option.some_injective _ this
      have hi0 : i ≠ 0 := by
        obtain ⟨j, hj, -⟩ := hc.2.2
        omega
      have hsp : c = ' ' ∧ prev ≠ some '\\' := by
        refine ⟨hcsp, ?_⟩
        rw [hprev, if_neg hi0]
        exact hc.2.1
      rw [if_pos hsp]
      have hAt : A = true := hA.mpr hc.2.2
      subst hAt
      simp only [if_pos]
      exact go_exit args rest (i + 1) true (some c) i (by omega)

/-- Completeness invariant, case two: when `q0` is the greatest wrap
candidate strictly before `wrap_min`, the scan returns `q0`: either the scan
index is still at most `q0` (any candidate in hand will be overwritten at
`q0` and the early exit cannot fire before `wrap_min`), or `q0` is already
in hand and the index is at most `wrap_min`. -/
lemma go_last (args : Config) (ln : List Char) (q0 : Nat)
    (hc : wrap_candidate ln q0) (hq : q0 < args.wrap_min)
    (hmax : ∀ r, wrap_candidate ln r → r < args.wrap_min → r ≤ q0) :
    ∀ (rest : List Char) (i : Nat) (A : Bool) (prev : Option Char)
      (wp : Option Nat),
      rest = ln.drop i →
      prev = (if i = 0 then none else ln[i - 1]?) →
      (A = true ↔ ∃ j < i, content_char_at ln j) →
      (i ≤ q0 ∨ (q0 < i ∧ i ≤ args.wrap_min ∧ wp = some q0)) →
      find_wrap_point_go args rest i A prev wp = some q0 := by
  intro rest
  induction rest with
  | nil =>
    intro i A prev wp hrest _ _ hphase
    have hlen : ln.length ≤ i := by
      rw [← List.drop_eq_nil_iff, ← hrest]
    have hq0 : q0 < ln.length := (List.getElem?_eq_some.mp hc.1).1
    rcases hphase with hip | ⟨-, -, hwp⟩
    · omega
    · exact hwp
  | cons c rest ih =>
    intro i A prev wp hrest hprev hA hphase
    have hci : ln[i]? = some c := drop_head ln rest c i hrest
    have hrest' : rest = ln.drop (i + 1) := drop_tail ln rest c i hrest
    have hprev' : (some c : Option Char) =
        (if i + 1 = 0 then none else ln[i + 1 - 1]?) := by
      simp [hci]
    rw [find_wrap_point_go]
    rcases hphase with hip | ⟨hgt, hle, hwp⟩
    · -- phase one: index at most q0, candidate in hand irrelevant
      rw [if_neg (by rintro ⟨h1, -⟩; omega)]
      rcases Nat.lt_or_ge i q0 with hlt | hge
      · by_cases hsp : c = ' ' ∧ prev ≠ some '\\'
        · rw [if_pos hsp]
          have hnc : ¬ content_char_at ln i := by
            refine not_content_space ln i (by rw [hci, hsp.1]) ?_
            by_cases hi0 : i = 0
            · exact Or.inl hi0
            · refine Or.inr ?_
              have := hsp.2
              rw [hprev, if_neg hi0] at this
              exact this
          refine ih (i + 1) A (some c) _ hrest' hprev' ?_ (Or.inl (by omega))
          rw [bex_lt_succ_of_not _ i hnc]
          exact hA
        · rw [if_neg hsp]
          by_cases hpc : c ≠ '%'
          · rw [if_pos hpc]
            refine ih (i + 1) true (some c) wp hrest' hprev' ?_
              (Or.inl (by omega))
            simp only [true_iff]
            exact ⟨i, Nat.lt_succ_self i, content_char_at_intro ln i c hci
              (by rw [← hprev]; exact hsp) hpc⟩
          · rw [if_neg hpc]
            refine ih (i + 1) A (some c) wp hrest' hprev' ?_
              (Or.inl (by omega))
            have hnc : ¬ content_char_at ln i :=
              not_content_marker ln i (by rw [hci]; simpa using hpc)
            rw [bex_lt_succ_of_not _ i hnc]
            exact hA
      · -- i = q0 : overwrite whatever was in hand with q0
        have hieq : i = q0 := by omega
        subst hieq
        have hcsp : c = ' ' := by
          have := hc.1
          rw [hci] at this
          exact Option.some_injective _ this
        have hi0 : i ≠ 0 := by
          obtain ⟨j, hj, -⟩ := hc.2.2
          omega
        have hsp : c = ' ' ∧ prev ≠ some '\\' := by
          refine ⟨hcsp, ?_⟩
          rw [hprev, if_neg hi0]
          exact hc.2.1
        rw [if_pos hsp]
        have hAt : A = true := hA.mpr hc.2.2
        subst hAt
        simp only [if_pos]
        refine ih (i + 1) true (some c) (some i) hrest' hprev' ?_
          (Or.inr ⟨by omega, by omega, rfl⟩)
        simp only [true_iff]
        obtain ⟨j, hj, hcj⟩ := hc.2.2
        exact ⟨j, by omega, hcj⟩
    · -- phase two: q0 in hand, index between q0 and wrap_min
      subst hwp
      rcases Nat.lt_or_ge i args.wrap_min with hlt | hge
      · rw [if_neg (by rintro ⟨h1, -⟩; omega)]
        by_cases hsp : c = ' ' ∧ prev ≠ some '\\'
        · rw [if_pos hsp]
          cases A with
          | true =>
            exfalso
            obtain ⟨j, hj, hcj⟩ := hA.mp rfl
            have hi0 : i ≠ 0 := by omega
            have hcand : wrap_candidate ln i := by
              refine ⟨by rw [hci, hsp.1], ?_, ⟨j, hj, hcj⟩⟩
              have := hsp.2
              rw [hprev, if_neg hi0] at this
              exact this
            exact absurd (hmax i hcand hlt) (by omega)
          | false =>
            simp only [if_neg Bool.false_ne_true, Bool.false_eq_true, if_false]
            have hnc : ¬ content_char_at ln i := by
              refine not_content_space ln i (by rw [hci, hsp.1]) ?_
              by_cases hi0 : i = 0
              · exact Or.inl hi0
              · refine Or.inr ?_
                have := hsp.2
                rw [hprev, if_neg hi0] at this
                exact this
            refine ih (i + 1) false (some c) _ hrest' hprev' ?_
              (Or.inr ⟨by omega, by omega, rfl⟩)
            rw [bex_lt_succ_of_not _ i hnc]
            simpa using hA
        · rw [if_neg hsp]
          by_cases hpc : c ≠ '%'
          · rw [if_pos hpc]
            refine ih (i + 1) true (some c) _ hrest' hprev' ?_
              (Or.inr ⟨by omega, by omega, rfl⟩)
            simp only [true_iff]
            exact ⟨i, Nat.lt_succ_self i, content_char_at_intro ln i c hci
              (by rw [← hprev]; exact hsp) hpc⟩
          · rw [if_neg hpc]
            refine ih (i + 1) A (some c) _ hrest' hprev' ?_
              (Or.inr ⟨by omega, by omega, rfl⟩)
            have hnc : ¬ content_char_at ln i :=
              not_content_marker ln i (by rw [hci]; simpa using hpc)
            rw [bex_lt_succ_of_not _ i hnc]
            exact hA
      · -- the early exit fires
        rw [if_pos ⟨hge, rfl⟩]


/-- Top-level soundness: any index returned by `find_wrap_point` is a wrap
candidate of the line. -/
lemma find_wrap_point_sound (ln : List Char) (args : Config) (p : Nat)
    (h : find_wrap_point ln args = some p) : wrap_candidate ln p := by
  refine go_sound args ln ln 0 false none none (List.drop_zero ln).symm rfl
    ?_ ?_ p h
  · intro h'
    exact absurd h' (by simp)
  · intro q hq
    exact Option.noConfusion hq

/-- Top-level completeness, case one: when the least wrap candidate of the
line lies at or after `wrap_min`, it is returned. -/
lemma find_wrap_point_first (ln : List Char) (args : Config) (p0 : Nat)
    (hc : wrap_candidate ln p0) (hwm : args.wrap_min ≤ p0)
    (hmin : ∀ q < p0, ¬ wrap_candidate ln q) :
    find_wrap_point ln args = some p0 := by
  refine go_first args ln p0 hc ?_ hwm ln 0 false none
    (List.drop_zero ln).symm rfl ?_ (Nat.zero_le p0)
  · intro q hq
    by_contra hlt
    exact hmin q (by omega) hq
  · constructor
    · intro h'
      exact absurd h' (by simp)
    · rintro ⟨j, hj, -⟩
      exact absurd hj (Nat.not_lt_zero j)

/-- Top-level completeness, case two: when a wrap candidate exists strictly
before `wrap_min`, the greatest such candidate is returned. -/
lemma find_wrap_point_last (ln : List Char) (args : Config) (q0 : Nat)
    (hc : wrap_candidate ln q0) (hq : q0 < args.wrap_min)
    (hmax : ∀ r < args.wrap_min, wrap_candidate ln r → r ≤ q0) :
    find_wrap_point ln args = some q0 := by
  refine go_last args ln q0 hc hq (fun r hr hlt => hmax r hlt hr) ln 0 false
    none none (List.drop_zero ln).symm rfl ?_ (Or.inl (Nat.zero_le q0))
  constructor
  · intro h'
    exact absurd h' (by simp)
  · rintro ⟨j, hj, -⟩
    exact absurd hj (Nat.not_lt_zero j)




/-- C1 counterexample: on the 105-character sentence of plain words with
`wrap = 80` and `wrap_min = 70`, a qualifying space exists at or after
column 70 (at column 74), yet `find_wrap_point` returns 69 — an earlier
space, not the first qualifying space at or after `wrap_min`. -/
theorem find_wrap_point_returns_earlier_space_cex :
    find_wrap_point scenario_a_line std_config = some 69 ∧
      wrap_candidate scenario_a_line 74 ∧ std_config.wrap_min ≤ 74 ∧
      69 < std_config.wrap_min := by
  exact ⟨by decide, by decide, by decide, by decide⟩

/-- C1 (amended): `find_wrap_point` returns the first qualifying break at or
after `wrap_min` only when no qualifying break exists before `wrap_min`
(first conjunct); when a qualifying break exists strictly before `wrap_min`,
the scan instead stops at index `wrap_min` and the last qualifying break
before `wrap_min` is returned (second conjunct) — as on the 105-character
plain-word sentence, where the returned split index is 69, the last
qualifying space before column 70. -/
theorem find_wrap_point_split_choice (ln : List Char) (args : Config) :
    (∀ p0, wrap_candidate ln p0 → args.wrap_min ≤ p0 →
      (∀ q < p0, ¬ wrap_candidate ln q) →
      find_wrap_point ln args = some p0) ∧
    (∀ q0, wrap_candidate ln q0 → q0 < args.wrap_min →
      (∀ r < args.wrap_min, wrap_candidate ln r → r ≤ q0) →
      find_wrap_point ln args = some q0) :=
  ⟨fun p0 hc hwm hmin => find_wrap_point_first ln args p0 hc hwm hmin,
   fun q0 hc hq hmax => find_wrap_point_last ln args q0 hc hq hmax⟩

/-- Witness for the amended C1: both conjuncts applied at concrete inputs —
a line whose first space is at column 80 (returned as the first candidate at
or after `wrap_min = 70`), and the 105-character sentence (whose last
candidate before column 70, namely 69, is returned). -/
theorem find_wrap_point_split_choice_witness :
    find_wrap_point late_space_line std_config = some 80 ∧
      find_wrap_point scenario_a_line std_config = some 69 := by
  constructor
  · exact (find_wrap_point_split_choice late_space_line std_config).1 80
      (by decide) (by decide) (by decide)
  · exact (find_wrap_point_split_choice scenario_a_line std_config).2 69
      (by decide) (by decide) (by decide)

/-- C5: any index returned by `find_wrap_point` is the position of a space
whose immediately preceding character is not a backslash and which follows
at least one content character; and a line with no unescaped space after the
first content character — a single 100-character token — yields none. -/
theorem find_wrap_point_space_sound :
    (∀ (ln : List Char) (args : Config) (p : Nat),
      find_wrap_point ln args = some p →
        ln[p]? = some ' ' ∧ ln[p - 1]? ≠ some '\\' ∧
          ∃ j < p, content_char_at ln j) ∧
    find_wrap_point (List.replicate 100 'a') std_config = none :=
  ⟨fun ln args p h => find_wrap_point_sound ln args p h, by decide⟩

/-- Witness for C5: the general conjunct applied to the concrete line
`"ab cd"`, on which `find_wrap_point` returns index 2. -/
theorem find_wrap_point_space_sound_witness :
    ("ab cd".data)[2]? = some ' ' ∧ ("ab cd".data)[1]? ≠ some '\\' ∧
      ∃ j < 2, content_char_at "ab cd".data j :=
  find_wrap_point_space_sound.1 "ab cd".data std_config 2 (by decide)

/-- C7: every index returned by `find_wrap_point` is strictly positive and
at most the character count of the line. -/
theorem find_wrap_point_bounds :
    ∀ (ln : List Char) (args : Config) (p : Nat),
      find_wrap_point ln args = some p → 0 < p ∧ p ≤ ln.length := by
  intro ln args p h
  obtain ⟨hsp, -, j, hj, -⟩ := find_wrap_point_sound ln args p h
  have hlen : p < ln.length := (List.getElem?_eq_some.mp hsp).1
  omega

/-- Witness for C7: the bounds at the concrete line `"ab cd ef"`, on which
`find_wrap_point` returns index 5. -/
theorem find_wrap_point_bounds_witness :
    0 < 5 ∧ 5 ≤ ("ab cd ef".data).length :=
  find_wrap_point_bounds "ab cd ef".data std_config 5 (by decide)

/-- C10: `find_wrap_point` never returns an index whose immediately
preceding character is a backslash — escape parity is not tracked, so this
holds even when that backslash is itself escaped: on the concrete line
`a\\\\ bb c`, whose space at index 3 directly follows a literal double
backslash, that space is skipped and index 6 is returned instead. -/
theorem find_wrap_point_prev_not_backslash :
    (∀ (ln : List Char) (args : Config) (p : Nat),
      find_wrap_point ln args = some p → ln[p - 1]? ≠ some '\\') ∧
    (find_wrap_point dbs_line std_config = some 6 ∧
      dbs_line[3]? = some ' ' ∧ dbs_line[2]? = some '\\' ∧
      dbs_line[1]? = some '\\') := by
  constructor
  · intro ln args p h
    exact (find_wrap_point_sound ln args p h).2.1
  · exact ⟨by decide, by decide, by decide, by decide⟩

/-- Witness for C10: the general conjunct applied to the concrete line with
the doubled backslash, on which `find_wrap_point` returns index 6. -/
theorem find_wrap_point_prev_not_backslash_witness :
    dbs_line[5]? ≠ some '\\' :=
  find_wrap_point_prev_not_backslash.1 dbs_line std_config 6 (by decide)

/-- C3: `needs_wrap` is true exactly when `keep` is false, both region flags
are off, and the character count of the line exceeds `wrap`; in particular it
is false whenever `keep` or either region flag is set, regardless of the
line's length. -/
theorem needs_wrap_spec (line : List Char) (state : State) (args : Config) :
    needs_wrap line state args = true ↔
      args.keep = false ∧ state.verbatim.visual = false ∧
        state.ignore.visual = false ∧ args.wrap < line.length := by
  simp [needs_wrap, Bool.and_eq_true, Bool.not_eq_true', and_assoc]

/-- C9: after `Cli::resolve`, `wrap_min` equals `wrap - 10` when
`wrap ≥ 50` and `wrap` otherwise, and in either case `wrap_min ≤ wrap`
holds (`resolve` leaves `wrap` itself unchanged). -/
theorem resolve_wrap_min (cli : Cli) (logs : List Log) :
    (cli.resolve logs).1.wrap_min =
        (if 50 ≤ cli.wrap then cli.wrap - 10 else cli.wrap) ∧
      (cli.resolve logs).1.wrap = cli.wrap ∧
      (cli.resolve logs).1.wrap_min ≤ (cli.resolve logs).1.wrap := by
  refine ⟨rfl, rfl, ?_⟩
  by_cases h : 50 ≤ cli.wrap <;> simp [Cli.resolve, h]

/-- Appending one record changes the count of "cannot be wrapped" warnings
by one exactly when the record is such a warning. -/
lemma cannot_wrap_warns_append (logs : List Log) (e : Log) :
    cannot_wrap_warns (logs ++ [e]) =
      cannot_wrap_warns logs +
        (if e.level = Level.warn ∧ e.message = "Line cannot be wrapped."
          then 1 else 0) := by
  rcases e with ⟨lv, f, a, b, l, m⟩
  by_cases h1 : lv = Level.warn
  · by_cases h2 : m = "Line cannot be wrapped."
    · simp [cannot_wrap_warns, List.filter_append, h1, h2]
    · simp [cannot_wrap_warns, List.filter_append, h1, h2]
  · simp [cannot_wrap_warns, List.filter_append, h1]

/-- A Trace-severity record does not change the warning count. -/
lemma cannot_wrap_warns_trace_pad (logs : List Log) (file : String)
    (a b : Nat) (ln : List Char) :
    cannot_wrap_warns (record_line_log logs Level.trace file a b ln
      "Wrapping long line.") = cannot_wrap_warns logs := by
  rw [record_line_log, cannot_wrap_warns_append]
  simp

/-- A "cannot be wrapped" warning record raises the count by one. -/
lemma cannot_wrap_warns_warn_pad (logs : List Log) (file : String)
    (a b : Nat) (ln : List Char) :
    cannot_wrap_warns (record_line_log logs Level.warn file a b ln
      "Line cannot be wrapped.") = cannot_wrap_warns logs + 1 := by
  rw [record_line_log, cannot_wrap_warns_append]
  simp

/-- The optional Trace prologue of `apply_wrap` never changes the warning
count. -/
lemma cannot_wrap_warns_prologue (args : Config) (logs : List Log)
    (file : String) (a b : Nat) (ln : List Char) :
    cannot_wrap_warns
      (if args.trace = true then
        record_line_log logs Level.trace file a b ln "Wrapping long line."
      else logs) = cannot_wrap_warns logs := by
  by_cases h : args.trace = true
  · rw [if_pos h, cannot_wrap_warns_trace_pad]
  · rw [if_neg h]

/-- C2: every split returned by `apply_wrap` reconstructs the original line:
the tail is an optional added comment marker followed by a remainder, and
head plus remainder is exactly the input line — no character is dropped or
duplicated. -/
theorem apply_wrap_round_trip :
    ∀ (ln : List Char) (st : State) (file : String) (args : Config)
      (logs : List Log) (head tail : List Char),
      (apply_wrap ln st file args logs).1 = some (head, tail) →
      ∃ marker rest2, tail = marker ++ rest2 ∧
        (marker = [] ∨ marker = ['%']) ∧ head ++ rest2 = ln := by
  intro ln st file args logs head tail h
  cases hfw : find_wrap_point ln args with
  | none =>
    rw [show (apply_wrap ln st file args logs).1 = none by
      simp [apply_wrap, hfw]] at h
    exact Option.noConfusion h
  | some p =>
    cases hci : find_comment_index ln with
    | none =>
      rw [show (apply_wrap ln st file args logs).1 =
          some (ln.take p, ln.drop p) by simp [apply_wrap, hfw, hci]] at h
      rw [Option.some.injEq, Prod.mk.injEq] at h
      obtain ⟨hh, ht⟩ := h
      exact ⟨[], ln.drop p, by rw [← ht]; rfl, Or.inl rfl,
        by rw [← hh]; exact List.take_append_drop p ln⟩
    | some ci =>
      by_cases hlt : ci < p
      · rw [show (apply_wrap ln st file args logs).1 =
            some (ln.take p, '%' :: ln.drop p) by
          simp [apply_wrap, hfw, hci, hlt]] at h
        rw [Option.some.injEq, Prod.mk.injEq] at h
        obtain ⟨hh, ht⟩ := h
        exact ⟨['%'], ln.drop p, by rw [← ht]; rfl, Or.inr rfl,
          by rw [← hh]; exact List.take_append_drop p ln⟩
      · rw [show (apply_wrap ln st file args logs).1 =
            some (ln.take p, ln.drop p) by
          simp [apply_wrap, hfw, hci, hlt]] at h
        rw [Option.some.injEq, Prod.mk.injEq] at h
        obtain ⟨hh, ht⟩ := h
        exact ⟨[], ln.drop p, by rw [← ht]; rfl, Or.inl rfl,
          by rw [← hh]; exact List.take_append_drop p ln⟩

/-- Witness for C2: the round trip at the concrete line `"ab cd"`, split by
`apply_wrap` into `"ab"` and `" cd"`. -/
theorem apply_wrap_round_trip_witness :
    ∃ marker rest2, " cd".data = marker ++ rest2 ∧
      (marker = [] ∨ marker = ['%']) ∧ "ab".data ++ rest2 = "ab cd".data :=
  apply_wrap_round_trip "ab cd".data std_state "input.tex" std_config []
    "ab".data " cd".data (by decide)

/-- C4: `apply_wrap` returns none exactly when `find_wrap_point` returns
none; when a wrap point exists the split is returned even if the point
exceeds `wrap`; one Warn "Line cannot be wrapped." record is appended
exactly when the wrap point is none or exceeds `wrap`; and on the concrete
line of a comment marker followed by 100 non-space characters it returns
none after appending exactly one such Warn record. -/
theorem apply_wrap_none_iff_warn :
    (∀ (ln : List Char) (st : State) (file : String) (args : Config)
       (logs : List Log),
       ((apply_wrap ln st file args logs).1 = none ↔
         find_wrap_point ln args = none) ∧
       (∀ p, find_wrap_point ln args = some p →
         ((apply_wrap ln st file args logs).1).isSome = true) ∧
       (∀ p, find_wrap_point ln args = some p → p ≤ args.wrap →
         cannot_wrap_warns (apply_wrap ln st file args logs).2 =
           cannot_wrap_warns logs) ∧
       (∀ p, find_wrap_point ln args = some p → args.wrap < p →
         cannot_wrap_warns (apply_wrap ln st file args logs).2 =
           cannot_wrap_warns logs + 1) ∧
       (find_wrap_point ln args = none →
         cannot_wrap_warns (apply_wrap ln st file args logs).2 =
           cannot_wrap_warns logs + 1)) ∧
    (find_wrap_point percent_line std_config = none ∧
      apply_wrap percent_line std_state "input.tex" std_config [] =
        (none, [⟨Level.warn, "input.tex", some 1, some 1, some percent_line,
          "Line cannot be wrapped."⟩])) := by
  constructor
  · intro ln st file args logs
    refine ⟨?_, ?_, ?_, ?_, ?_⟩
    · constructor
      · intro h
        cases hfw : find_wrap_point ln args with
        | none => rfl
        | some p =>
          rw [show (apply_wrap ln st file args logs).1 =
              Option.map (fun p =>
                (ln.take p,
                  (match find_comment_index ln with
                   | some c => if c < p then ['%'] else []
                   | none => []) ++ ln.drop p)) (find_wrap_point ln args)
              from rfl, hfw] at h
          exact Option.noConfusion h
      · intro h
        simp [apply_wrap, h]
    · intro p hp
      simp [apply_wrap, hp]
    · intro p hp hle
      rw [show (apply_wrap ln st file args logs).2 =
          (match find_wrap_point ln args with
           | some p =>
             if p ≤ args.wrap then
               (if args.trace = true then
                 record_line_log logs Level.trace file st.linum_new
                   st.linum_old ln "Wrapping long line."
               else logs)
             else
               record_line_log
                 (if args.trace = true then
                   record_line_log logs Level.trace file st.linum_new
                     st.linum_old ln "Wrapping long line."
                 else logs) Level.warn file st.linum_new st.linum_old ln
                 "Line cannot be wrapped."
           | none =>
             record_line_log
               (if args.trace = true then
                 record_line_log logs Level.trace file st.linum_new
                   st.linum_old ln "Wrapping long line."
               else logs) Level.warn file st.linum_new st.linum_old ln
               "Line cannot be wrapped.") from rfl, hp]
      rw [show (match some p with
           | some p =>
             if p ≤ args.wrap then
               (if args.trace = true then
                 record_line_log logs Level.trace file st.linum_new
                   st.linum_old ln "Wrapping long line."
               else logs)
             else
               record_line_log
                 (if args.trace = true then
                   record_line_log logs Level.trace file st.linum_new
                     st.linum_old ln "Wrapping long line."
                 else logs) Level.warn file st.linum_new st.linum_old ln
                 "Line cannot be wrapped."
           | none =>
             record_line_log
               (if args.trace = true then
                 record_line_log logs Level.trace file st.linum_new
                   st.linum_old ln "Wrapping long line."
               else logs) Level.warn file st.linum_new st.linum_old ln
               "Line cannot be wrapped.") =
          (if p ≤ args.wrap then
            (if args.trace = true then
              record_line_log logs Level.trace file st.linum_new
                st.linum_old ln "Wrapping long line."
            else logs)
          else
            record_line_log
              (if args.trace = true then
                record_line_log logs Level.trace file st.linum_new
                  st.linum_old ln "Wrapping long line."
              else logs) Level.warn file st.linum_new st.linum_old ln
              "Line cannot be wrapped.") from rfl]
      rw [if_pos hle, cannot_wrap_warns_prologue]
    · intro p hp hgt
      have hnle : ¬ p ≤ args.wrap := by omega
      simp only [apply_wrap, hp, hnle, if_false]
      rw [cannot_wrap_warns_warn_pad, cannot_wrap_warns_prologue]
    · intro h
      simp only [apply_wrap, h]
      rw [cannot_wrap_warns_warn_pad, cannot_wrap_warns_prologue]
  · exact ⟨by decide, by decide⟩

/-- Witness for C4: on the concrete line whose single wrap point (86)
exceeds `wrap = 80`, the split is still returned and exactly one warning is
appended. -/
theorem apply_wrap_none_iff_warn_witness :
    cannot_wrap_warns
        (apply_wrap over_wrap_line std_state "input.tex" std_config []).2 =
      cannot_wrap_warns [] + 1 ∧
      ((apply_wrap over_wrap_line std_state "input.tex" std_config
        []).1).isSome = true := by
  constructor
  · exact (apply_wrap_none_iff_warn.1 over_wrap_line std_state "input.tex"
      std_config []).2.2.2.1 86 (by decide) (by decide)
  · exact (apply_wrap_none_iff_warn.1 over_wrap_line std_state "input.tex"
      std_config []).2.1 86 (by decide)

/-- C6: when `apply_wrap` splits at wrap point `p`, the head is the
character prefix of length `p`, and the tail gets a comment marker
prepended exactly when the line has a first unescaped comment marker at an
index strictly less than `p`; otherwise the tail is the unmodified suffix
from `p`. -/
theorem apply_wrap_comment_marker :
    ∀ (ln : List Char) (st : State) (file : String) (args : Config)
      (logs : List Log) (p : Nat),
      find_wrap_point ln args = some p →
      ((∀ ci, find_comment_index ln = some ci → ci < p →
        (apply_wrap ln st file args logs).1 =
          some (ln.take p, '%' :: ln.drop p)) ∧
       (∀ ci, find_comment_index ln = some ci → p ≤ ci →
        (apply_wrap ln st file args logs).1 =
          some (ln.take p, ln.drop p)) ∧
       (find_comment_index ln = none →
        (apply_wrap ln st file args logs).1 =
          some (ln.take p, ln.drop p))) := by
  intro ln st file args logs p hfw
  refine ⟨?_, ?_, ?_⟩
  · intro ci hci hlt
    simp [apply_wrap, hfw, hci, hlt]
  · intro ci hci hge
    have hnlt : ¬ ci < p := by omega
    simp [apply_wrap, hfw, hci, hnlt]
  · intro hci
    simp [apply_wrap, hfw, hci]

/-- Witness for C6, both scenario-D lines: comment marker at index 10 and
wrap point 40 gives a comment-prefixed tail; comment marker at index 10 and
wrap point 5 gives an unmodified tail. -/
theorem apply_wrap_comment_marker_witness :
    (apply_wrap scen_d_line std_state "input.tex" std_config []).1 =
        some (scen_d_line.take 40, '%' :: scen_d_line.drop 40) ∧
      (apply_wrap scen_d2_line std_state "input.tex" std_config []).1 =
        some (scen_d2_line.take 5, scen_d2_line.drop 5) := by
  constructor
  · exact (apply_wrap_comment_marker scen_d_line std_state "input.tex"
      std_config [] 40 (by decide)).1 10 (by decide) (by decide)
  · exact (apply_wrap_comment_marker scen_d2_line std_state "input.tex"
      std_config [] 5 (by decide)).2.1 10 (by decide) (by decide)

/-- C8: the only effect of `apply_wrap` on the log is appending: the input
records stay unchanged, in order, at the front; then exactly one
Trace-severity "Wrapping long line." record tagged with the file and both
line numbers when `trace` is set and none otherwise; then at most one
record, which can only be the Warn-severity "Line cannot be wrapped."
record. Totality of the embedded function reflects that no panic or abort
is reachable. -/
theorem apply_wrap_log_frame :
    ∀ (ln : List Char) (st : State) (file : String) (args : Config)
      (logs : List Log),
      ∃ w : List Log,
        (apply_wrap ln st file args logs).2 =
          (logs ++
            (if args.trace = true then
              [⟨Level.trace, file, some st.linum_new, some st.linum_old,
                some ln, "Wrapping long line."⟩]
            else [])) ++ w ∧
        w.length ≤ 1 ∧
        ∀ e ∈ w,
          e = ⟨Level.warn, file, some st.linum_new, some st.linum_old,
            some ln, "Line cannot be wrapped."⟩ := by
  intro ln st file args logs
  by_cases htr : args.trace = true
  · cases hfw : find_wrap_point ln args with
    | some p =>
      by_cases hle : p ≤ args.wrap
      · refine ⟨[], ?_, by simp, by simp⟩
        simp [apply_wrap, htr, hfw, hle, record_line_log]
      · refine ⟨[⟨Level.warn, file, some st.linum_new, some st.linum_old,
          some ln, "Line cannot be wrapped."⟩], ?_, by simp, by simp⟩
        simp [apply_wrap, htr, hfw, hle, record_line_log]
    | none =>
      refine ⟨[⟨Level.warn, file, some st.linum_new, some st.linum_old,
        some ln, "Line cannot be wrapped."⟩], ?_, by simp, by simp⟩
      simp [apply_wrap, htr, hfw, record_line_log]
  · cases hfw : find_wrap_point ln args with
    | some p =>
      by_cases hle : p ≤ args.wrap
      · refine ⟨[], ?_, by simp, by simp⟩
        simp [apply_wrap, htr, hfw, hle, record_line_log]
      · refine ⟨[⟨Level.warn, file, some st.linum_new, some st.linum_old,
          some ln, "Line cannot be wrapped."⟩], ?_, by simp, by simp⟩
        simp [apply_wrap, htr, hfw, hle, record_line_log]
    | none =>
      refine ⟨[⟨Level.warn, file, some st.linum_new, some st.linum_old,
        some ln, "Line cannot be wrapped."⟩], ?_, by simp, by simp⟩
      simp [apply_wrap, htr, hfw, record_line_log]


end TexFmt
